import Mathlib

/-!
# Verification of the llm-kit vector store abstraction layer

Shallow embedding of the three vector store adapters
(`pgvectorstore.py`, `sqlitevectorstore.py`, `qdrantvectorstore.py`)
and the shared data model (`types.py`), with theorems settling the
spec's claims about them.

Modelling conventions:
* vectors are lists of rationals; each engine's native distance (or
  similarity, for the remote service) is an explicit function parameter
  `dist`/`sim`, since the adapters treat it as an opaque engine output;
* JSON-compatible metadata values are the inductive `JVal`; a metadata
  document is an association list with first-match lookup, matching the
  lookup semantics of a Python dict without duplicate keys;
* every operation also returns the list of engine calls it performed,
  so that claims about "no engine I/O before validation" are statable;
* the engine-side behaviours the adapters rely on (SQL `ORDER BY`
  distance with `LIMIT`, `ON CONFLICT` upsert, `rowcount`, the vec0
  KNN `MATCH`, qdrant point replacement by id and filtered
  search/delete) are modelled at the documented interface of each
  engine; ties in distance are ordered by a deterministic insertion
  sort, a refinement of the engines' unspecified tie order.
-/

/-- A JSON-compatible scalar metadata value (`Any` in `types.py`,
restricted to the scalars the adapters compare by equality). -/
inductive JVal where
  | str (s : String)
  | int (n : Int)
  | bool (b : Bool)
  | null
deriving DecidableEq

/-- A metadata document: string-keyed map, modelled as an association
list with first-match lookup (Python dict semantics). -/
abbrev Meta := List (String × JVal)

/-- First-match lookup in a metadata document (`dict.__getitem__` /
`dict.get` returning `none` for a missing key). -/
def mlookup : Meta → String → Option JVal
  | [], _ => none
  | (k, v) :: rest, key => if k = key then some v else mlookup rest key

/-- Python's `dict.get(k)`: missing keys read as `None` (`JVal.null`). -/
def pyGet (m : Meta) (k : String) : JVal :=
  (mlookup m k).getD JVal.null

/-- A vector: ordered fixed-length sequence of numbers (`list[float]`
in `types.py`, embedded over `ℚ`). -/
abbrev Vec := List ℚ

/-- `VectorItem` from `types.py`. -/
structure VectorItem where
  id : String
  vector : Vec
  metadata : Meta
deriving DecidableEq

/-- `QueryResult` from `types.py`. -/
structure QueryResult where
  id : String
  score : ℚ
  metadata : Meta
deriving DecidableEq

/-- Python truthiness of an optional list argument (`if ids:` /
`if filters:`): `None` and the empty collection are falsy. -/
def truthy {α : Type} (o : Option (List α)) : Bool :=
  match o with
  | some l => !l.isEmpty
  | none => false

/-- The underlying list of an optional list argument. -/
def optList {α : Type} (o : Option (List α)) : List α :=
  o.getD []

/-- Python `str()` applied to a metadata value (used by the relational
adapter, which binds `str(value)` as the SQL comparison text). -/
def pyStr : JVal → String
  | .str s => s
  | .int n => toString n
  | .bool b => if b then "True" else "False"
  | .null => "None"

/-- PostgreSQL's `metadata ->> key` text extraction of a JSON scalar:
JSON `null` extracts to SQL `NULL` (`none`). -/
def jsonTextOpt : JVal → Option String
  | .str s => some s
  | .int n => some (toString n)
  | .bool b => some (if b then "true" else "false")
  | .null => none

/-- Sort a list by a rational-valued key, ascending.  Deterministic
(stable) refinement of the engines' order-by-distance output. -/
def sortByKey {α : Type} (f : α → ℚ) (l : List α) : List α :=
  l.insertionSort (fun a b => f a ≤ f b)

/-! ## Relational adapter (`pgvectorstore.py`)

Backing model: table `vector_items(namespace, id, embedding, metadata)`
with composite primary key `(namespace, id)`.  The metadata document is
stored as `jsonb`; `json.dumps`/`jsonb` round-trips scalars, so rows
hold the parsed `Meta` directly. -/

/-- One row of the `vector_items` table. -/
structure PgRow where
  ns : String
  id : String
  embedding : Vec
  metadata : Meta
deriving DecidableEq

/-- The `vector_items` table. -/
abbrev PgState := List PgRow

/-- Engine statements issued by the relational adapter. -/
inductive PgCall where
  | upsertStmt
  | queryStmt
  | deleteStmt
deriving DecidableEq

/-- One metadata filter predicate of `PgVectorStore`:
`metadata ->> %s = %s` with parameters `key, str(value)`.  A row
matches iff the text extraction of `metadata[key]` is non-NULL and
equals `str(value)`. -/
def pgFilterMatch (m : Meta) (fs : Meta) : Bool :=
  fs.all fun kv =>
    decide (((mlookup m kv.1).bind jsonTextOpt) = some (pyStr kv.2))

/-- The composite primary key test of the `vector_items` table:
does row `r` carry key `(ns, i)`? -/
def pgKeyHit (ns i : String) (r : PgRow) : Bool :=
  decide (r.ns = ns) && decide (r.id = i)

/-- One row of the batched `INSERT ... ON CONFLICT (namespace, id)
DO UPDATE SET embedding = EXCLUDED.embedding, metadata =
EXCLUDED.metadata` statement of `PgVectorStore.upsert`. -/
def pgUpsertRow (st : PgState) (ns : String) (it : VectorItem) : PgState :=
  if st.any (pgKeyHit ns it.id) then
    st.map fun r =>
      if pgKeyHit ns it.id r then
        { r with embedding := it.vector, metadata := it.metadata }
      else r
  else
    st ++ [⟨ns, it.id, it.vector, it.metadata⟩]

/-- `PgVectorStore.upsert`: builds the row list, returns with no
statement when it is empty, otherwise executes the batched insert. -/
def pgUpsert (st : PgState) (ns : String) (items : List VectorItem) :
    PgState × List PgCall :=
  if items.isEmpty then (st, [])
  else (items.foldl (fun s it => pgUpsertRow s ns it) st, [.upsertStmt])

/-- The `WHERE` predicate built by `PgVectorStore.query`: namespace
equality plus, when `filters` is truthy, one `metadata ->> k = str(v)`
clause per filter entry. -/
def pgQueryMatch (ns : String) (filters : Option Meta) (r : PgRow) : Bool :=
  decide (r.ns = ns)
    && (if truthy filters then pgFilterMatch r.metadata (optList filters) else true)

/-- `PgVectorStore.query`: validates `top_k`, then one `SELECT`
ordered by `embedding <=> %s` with `LIMIT top_k`, returning
`1 - (embedding <=> %s)` as the score. -/
def pgQuery (dist : Vec → Vec → ℚ) (st : PgState) (ns : String) (vector : Vec)
    (topK : Int) (filters : Option Meta) :
    Except String (List QueryResult) × List PgCall :=
  if topK < 1 then (.error "top_k must be at least 1", [])
  else
    let matching := st.filter (pgQueryMatch ns filters)
    let sorted := sortByKey (fun r => dist vector r.embedding) matching
    let rows := sorted.take topK.toNat
    (.ok (rows.map fun r => ⟨r.id, 1 - dist vector r.embedding, r.metadata⟩),
      [.queryStmt])

/-- The `WHERE` predicate built by `PgVectorStore.delete`: namespace
equality plus `id = ANY(%s)` when `ids` is truthy plus the metadata
clauses when `filters` is truthy. -/
def pgDeleteMatch (ns : String) (ids : Option (List String))
    (filters : Option Meta) (r : PgRow) : Bool :=
  decide (r.ns = ns)
    && (if truthy ids then decide (r.id ∈ optList ids) else true)
    && (if truthy filters then pgFilterMatch r.metadata (optList filters) else true)

/-- `PgVectorStore.delete`: validates that `ids` or `filters` is
supplied, then one `DELETE` statement; returns the driver's
`rowcount`, the number of rows the statement removed. -/
def pgDelete (st : PgState) (ns : String) (ids : Option (List String))
    (filters : Option Meta) :
    Except String (Int × PgState) × List PgCall :=
  if !truthy ids && !truthy filters then
    (.error "delete requires ids or filters", [])
  else
    let removed := st.filter (fun r => pgDeleteMatch ns ids filters r)
    let kept := st.filter (fun r => !pgDeleteMatch ns ids filters r)
    (.ok ((removed.length : Int), kept), [.deleteStmt])

/-- `PgVectorStore._get_param_value`: an explicit argument wins;
otherwise the named environment variable (already passed through
Python's `int`) is consulted; otherwise the built-in default. -/
def getParamValue (passed : Option Int) (envValue : Option Int) (dflt : Int) : Int :=
  match passed with
  | some v => v
  | none =>
    match envValue with
    | some e => e
    | none => dflt

/-- The process environment at construction time, restricted to the
integer-parsed values of the variables `PgVectorStore.__init__`
consults. -/
structure PgEnv where
  poolMinSizeVar : Option Int
  poolMaxSizeVar : Option Int
deriving DecidableEq

/-- The pool sizing computed by `PgVectorStore.__init__`:
`_get_param_value(pool_min_size, "LLM_KIT_PG_POOL_MIN_SIZE", 1)` and
`_get_param_value(pool_max_size, "LLM_KIT_PG_POOL_MAX_SIZE", 10)`. -/
def pgPoolConfig (env : PgEnv) (poolMinSize poolMaxSize : Option Int) : Int × Int :=
  (getParamValue poolMinSize env.poolMinSizeVar 1,
   getParamValue poolMaxSize env.poolMaxSizeVar 10)

/-! ## Embedded adapter (`sqlitevectorstore.py`)

Backing model: the `vec0` virtual table `vec_items(composite_id TEXT
PRIMARY KEY, namespace TEXT PARTITION KEY, embedding, +metadata,
+item_id)`.  `metadata` is stored as `json.dumps` text and re-parsed on
read; the round trip is the identity on scalar documents, so rows hold
the parsed `Meta` directly.  The PRIMARY KEY constraint makes an
`INSERT` of a duplicate `composite_id` fail. -/

/-- One row of the `vec_items` virtual table. -/
structure SqRow where
  composite_id : String
  ns : String
  embedding : Vec
  metadata : Meta
  item_id : String
deriving DecidableEq

/-- The `vec_items` virtual table. -/
abbrev SqState := List SqRow

/-- Engine statements issued by the embedded adapter. -/
inductive SqCall where
  | deleteWhere
  | insertRow
  | knnSelect
  | scanSelect
  | countSelect
deriving DecidableEq

/-- `SQLiteVectorStore._make_key`: the composite primary key
`f"{namespace}:{item_id}"`. -/
def sqMakeKey (ns itemId : String) : String :=
  ns ++ ":" ++ itemId

/-- The client-side metadata filter of the embedded adapter:
`all(metadata.get(k) == v for k, v in filters.items())`, with Python's
`dict.get` reading a missing key as `None`. -/
def sqFilterMatch (m : Meta) (fs : Meta) : Bool :=
  fs.all fun kv => decide (pyGet m kv.1 = kv.2)

/-- The delete / count predicate `namespace = ? AND composite_id IN
(...)` used by both `upsert`'s delete step and `delete`. -/
def sqKeyHit (ns : String) (keys : List String) (r : SqRow) : Bool :=
  decide (r.ns = ns) && decide (r.composite_id ∈ keys)

/-- The insert loop of `SQLiteVectorStore.upsert`: one `INSERT INTO
vec_items` per item, in order.  Inserting a `composite_id` that is
already present violates the PRIMARY KEY constraint: the statement
fails, later inserts do not run, and the rows inserted so far remain
(apsw autocommits each statement). -/
def sqInsertAll (ns : String) : SqState → List VectorItem →
    (SqState × Option String) × List SqCall
  | st, [] => ((st, none), [])
  | st, it :: rest =>
    let key := sqMakeKey ns it.id
    if st.any (fun r => decide (r.composite_id = key)) then
      ((st, some "UNIQUE constraint failed: vec_items.composite_id"), [.insertRow])
    else
      let next := sqInsertAll ns (st ++ [⟨key, ns, it.vector, it.metadata, it.id⟩]) rest
      (next.1, .insertRow :: next.2)

/-- `SQLiteVectorStore.upsert`: returns before any engine work when
`items` is empty; otherwise one `DELETE ... WHERE namespace = ? AND
composite_id IN (...)` for the items' composite keys, then the insert
loop.  The `Option String` is the error of a failed insert, carried
with the partial state it leaves behind. -/
def sqUpsert (st : SqState) (ns : String) (items : List VectorItem) :
    (SqState × Option String) × List SqCall :=
  if items.isEmpty then ((st, none), [])
  else
    let keys := items.map fun it => sqMakeKey ns it.id
    let st1 := st.filter fun r => !sqKeyHit ns keys r
    let ins := sqInsertAll ns st1 items
    (ins.1, .deleteWhere :: ins.2)

/-- `SQLiteVectorStore.query`: validates `top_k`, then one vec0 KNN
`SELECT ... WHERE embedding MATCH ? AND k = ? AND namespace = ?` with
`k = top_k * 3` when filters are truthy (over-fetch) and `k = top_k`
otherwise; the engine returns the `k` nearest rows of the namespace
partition in ascending cosine distance.  Rows failing the client-side
metadata filter are skipped; scores are `1 - distance / 2`; the result
loop stops once `top_k` results are collected. -/
def sqQuery (dist : Vec → Vec → ℚ) (st : SqState) (ns : String) (vector : Vec)
    (topK : Int) (filters : Option Meta) :
    Except String (List QueryResult) × List SqCall :=
  if topK < 1 then (.error "top_k must be at least 1", [])
  else
    let fetchK : Int := if truthy filters then topK * 3 else topK
    let nsRows := st.filter fun r => decide (r.ns = ns)
    let fetched := (sortByKey (fun r => dist vector r.embedding) nsRows).take fetchK.toNat
    let kept := fetched.filter fun r =>
      if truthy filters then sqFilterMatch r.metadata (optList filters) else true
    (.ok ((kept.take topK.toNat).map fun r =>
        ⟨r.item_id, 1 - dist vector r.embedding / 2, r.metadata⟩),
      [.knnSelect])

/-- `SQLiteVectorStore.delete`: validates that `ids` or `filters` is
supplied.  With ids only: `SELECT COUNT(*)` then `DELETE`, both over
`namespace = ? AND composite_id IN (...)`.  Otherwise: scan every row
of the namespace, filter client-side by the id set and the metadata
filters, and delete the matching composite keys, returning how many
item ids matched. -/
def sqDelete (st : SqState) (ns : String) (ids : Option (List String))
    (filters : Option Meta) :
    Except String (Int × SqState) × List SqCall :=
  if !truthy ids && !truthy filters then
    (.error "delete requires ids or filters", [])
  else if truthy ids && !truthy filters then
    let keys := (optList ids).map fun i => sqMakeKey ns i
    let countBefore := (st.filter (sqKeyHit ns keys)).length
    (.ok ((countBefore : Int), st.filter fun r => !sqKeyHit ns keys r),
      [.countSelect, .deleteWhere])
  else
    let nsRows := st.filter fun r => decide (r.ns = ns)
    let matchingIds := (nsRows.filter fun r =>
      (if truthy ids then decide (r.item_id ∈ optList ids) else true)
        && (if truthy filters then sqFilterMatch r.metadata (optList filters) else true)).map
      fun r => r.item_id
    if matchingIds.isEmpty then (.ok (0, st), [.scanSelect])
    else
      let keys := matchingIds.map fun i => sqMakeKey ns i
      (.ok ((matchingIds.length : Int),
        st.filter fun r => !sqKeyHit ns keys r),
        [.scanSelect, .deleteWhere])

/-! ## Remote-service adapter (`qdrantvectorstore.py`)

Backing model: one qdrant collection of points, each holding an id, a
vector and a payload document.  The collection may not exist yet; every
public operation first runs `_ensure_collection` (a
`collection_exists` round trip, plus `create_collection` when absent).
The qdrant engine keys points by their id alone: a native upsert
replaces any point with the same id.  `FieldCondition(key,
MatchValue(v))` matches points whose payload holds exactly `v` at
`key`; `HasIdCondition` matches by id membership. -/

/-- One qdrant point. -/
structure QPoint where
  id : String
  vector : Vec
  payload : Meta
deriving DecidableEq

/-- The state of the adapter's collection. -/
structure QState where
  collectionExists : Bool
  points : List QPoint
deriving DecidableEq

/-- Engine round trips issued by the remote-service adapter. -/
inductive QCall where
  | collectionExistsCheck
  | createCollection
  | upsertPoints
  | queryPoints
  | deletePoints
  | retrievePoints
  | countPoints
deriving DecidableEq

/-- `QdrantVectorStore._ensure_collection`: a `collection_exists`
round trip, then `create_collection` when it does not exist. -/
def qEnsureCollection (st : QState) : QState × List QCall :=
  if st.collectionExists then (st, [.collectionExistsCheck])
  else ({ st with collectionExists := true }, [.collectionExistsCheck, .createCollection])

/-- The payload built by `QdrantVectorStore.upsert`:
`{"_namespace": namespace, **dict(item.metadata)}`.  A metadata entry
named `_namespace` overrides the namespace argument (later dict keys
win); the association list is ordered so that first-match lookup gives
the metadata entries precedence. -/
def qPayload (ns : String) (meta : Meta) : Meta :=
  meta ++ [("_namespace", JVal.str ns)]

/-- The native point id equality test (qdrant keys points by id). -/
def qIdHit (i : String) (q : QPoint) : Bool :=
  decide (q.id = i)

/-- The engine's native point upsert for one point: replace the point
with the same id if present, else append. -/
def qUpsertPoint (pts : List QPoint) (p : QPoint) : List QPoint :=
  if pts.any (qIdHit p.id) then
    pts.map fun q => if qIdHit p.id q then p else q
  else pts ++ [p]

/-- `QdrantVectorStore.upsert`: ensures the collection, builds the
point structs, returns when the list is empty, otherwise issues the
native upsert with `wait=True`. -/
def qdrantUpsert (st : QState) (ns : String) (items : List VectorItem) :
    QState × List QCall :=
  let ens := qEnsureCollection st
  let pts := items.map fun it => QPoint.mk it.id it.vector (qPayload ns it.metadata)
  if pts.isEmpty then ens
  else ({ ens.1 with points := pts.foldl qUpsertPoint ens.1.points }, ens.2 ++ [.upsertPoints])

/-- The filter conditions built by the query/delete/count paths:
`_namespace` must match the namespace string, and each truthy filter
entry must match exactly (`FieldCondition` with `MatchValue`). -/
def qFilterMatch (ns : String) (filters : Option Meta) (p : QPoint) : Bool :=
  decide (mlookup p.payload "_namespace" = some (JVal.str ns))
    && (if truthy filters then
          (optList filters).all fun kv => decide (mlookup p.payload kv.1 = some kv.2)
        else true)

/-- `QdrantVectorStore.query`: ensures the collection, validates
`top_k`, then issues a native `query_points` search with the namespace
and filter conditions; the engine returns the best `top_k` matching
points in descending native score, taken here from the similarity
parameter `sim`.  The hidden `_namespace` key is stripped from the
returned metadata. -/
def qdrantQuery (sim : Vec → Vec → ℚ) (st : QState) (ns : String) (vector : Vec)
    (topK : Int) (filters : Option Meta) :
    Except String (List QueryResult) × QState × List QCall :=
  let ens := qEnsureCollection st
  if topK < 1 then (.error "top_k must be at least 1", ens.1, ens.2)
  else
    let matching := ens.1.points.filter (qFilterMatch ns filters)
    let sorted := sortByKey (fun p => -(sim vector p.vector)) matching
    let hits := sorted.take topK.toNat
    (.ok (hits.map fun p =>
        ⟨p.id, sim vector p.vector, p.payload.filter fun kv => kv.1 ≠ "_namespace"⟩),
      ens.1, ens.2 ++ [.queryPoints])

/-- `QdrantVectorStore._count_matching`: with truthy `ids`, a native
`retrieve` of those ids (collection-wide — the retrieval is not
namespace-scoped) counting the points whose payload `_namespace`
equals the namespace; the metadata filters are not consulted on this
path.  Otherwise an exact native `count` with the namespace and filter
conditions. -/
def qCountMatching (st : QState) (ns : String) (ids : Option (List String))
    (filters : Option Meta) : Nat × List QCall :=
  if truthy ids then
    ((st.points.filter fun p => decide (p.id ∈ optList ids)).countP
        (fun p => decide (mlookup p.payload "_namespace" = some (JVal.str ns))),
      [.retrievePoints])
  else
    (st.points.countP (fun p => qFilterMatch ns filters p), [.countPoints])

/-- The points-selector filter built by `QdrantVectorStore.delete`:
the namespace condition, plus `HasIdCondition` when `ids` is truthy,
plus one `FieldCondition` per truthy filter entry. -/
def qDeleteMatch (ns : String) (ids : Option (List String))
    (filters : Option Meta) (p : QPoint) : Bool :=
  decide (mlookup p.payload "_namespace" = some (JVal.str ns))
    && (if truthy ids then decide (p.id ∈ optList ids) else true)
    && (if truthy filters then
          (optList filters).all fun kv => decide (mlookup p.payload kv.1 = some kv.2)
        else true)

/-- `QdrantVectorStore.delete`: ensures the collection, validates the
arguments, pre-counts via `_count_matching`, then issues the native
filtered delete and returns the pre-count. -/
def qdrantDelete (st : QState) (ns : String) (ids : Option (List String))
    (filters : Option Meta) :
    Except String (Int × QState) × List QCall :=
  let ens := qEnsureCollection st
  if !truthy ids && !truthy filters then
    (.error "delete requires ids or filters", ens.2)
  else
    let cnt := qCountMatching ens.1 ns ids filters
    let st2 := { ens.1 with points := ens.1.points.filter fun p => !qDeleteMatch ns ids filters p }
    (.ok ((cnt.1 : Int), st2), ens.2 ++ cnt.2 ++ [.deletePoints])

/-- Decidable equality of operation results, so that concrete runs of
the embedded operations can be checked by evaluation. -/
instance instDecEqExcept {α β : Type} [DecidableEq α] [DecidableEq β] :
    DecidableEq (Except α β) := fun x y =>
  match x, y with
  | .error a, .error b =>
    if h : a = b then isTrue (by rw [h]) else isFalse (fun hc => h (Except.error.inj hc))
  | .error _, .ok _ => isFalse Except.noConfusion
  | .ok _, .error _ => isFalse Except.noConfusion
  | .ok a, .ok b =>
    if h : a = b then isTrue (by rw [h]) else isFalse (fun hc => h (Except.ok.inj hc))

/-- Observer: does a row live outside namespace `ns`?  (`query` /
`delete` / `upsert` must leave such rows untouched.) -/
def pgOtherNs (ns : String) (r : PgRow) : Bool :=
  !decide (r.ns = ns)

/-- Observer: does a row of the embedded table live outside
namespace `ns`? -/
def sqOtherNs (ns : String) (r : SqRow) : Bool :=
  !decide (r.ns = ns)

/-- Observer: is a stored point outside namespace `ns` (its payload's
`_namespace` field differs from `ns`)? -/
def qOtherNs (ns : String) (p : QPoint) : Bool :=
  !decide (mlookup p.payload "_namespace" = some (JVal.str ns))

/-! ## Theorems -/

theorem sortByKey_pairwise {α : Type} (f : α → ℚ) (l : List α) :
    (sortByKey f l).Pairwise (fun a b => f a ≤ f b) := by
  haveI : IsTotal α (fun a b => f a ≤ f b) := ⟨fun a b => le_total (f a) (f b)⟩
  haveI : IsTrans α (fun a b => f a ≤ f b) := ⟨fun _ _ _ h₁ h₂ => le_trans h₁ h₂⟩
  exact List.sorted_insertionSort _ l

theorem mem_sortByKey {α : Type} (f : α → ℚ) (l : List α) (x : α) :
    x ∈ sortByKey f l ↔ x ∈ l :=
  List.mem_insertionSort _

/-! ## Helper lemmas -/

theorem mlookup_append_of_none {m₁ : Meta} (m₂ : Meta) {k : String}
    (h : mlookup m₁ k = none) : mlookup (m₁ ++ m₂) k = mlookup m₂ k := by
  induction m₁ with
  | nil => rfl
  | cons kv rest ih =>
    by_cases hk : kv.1 = k
    · simp [mlookup, hk] at h
    · simp only [mlookup, hk] at h
      simpa [mlookup, hk] using ih (by simpa [mlookup, hk] using h)

theorem mlookup_append_of_some {m₁ : Meta} (m₂ : Meta) {k : String} {v : JVal}
    (h : mlookup m₁ k = some v) : mlookup (m₁ ++ m₂) k = some v := by
  induction m₁ with
  | nil => simp [mlookup] at h
  | cons kv rest ih =>
    by_cases hk : kv.1 = k
    · simp only [mlookup, hk] at h ⊢
      simpa [List.cons_append, mlookup, hk] using h
    · simp only [mlookup, hk] at h
      simpa [List.cons_append, mlookup, hk] using ih (by simpa using h)

theorem mlookup_filter_ne (m : Meta) (k : String) :
    mlookup (m.filter fun kv => decide (kv.1 ≠ k)) k = none := by
  induction m with
  | nil => rfl
  | cons kv rest ih =>
    by_cases h : kv.1 = k
    · simpa [List.filter_cons, h] using ih
    · simpa [List.filter_cons, h, mlookup] using ih

theorem filter_map_stable {α : Type} (q : α → Bool) (g : α → α)
    (hq : ∀ x, q (g x) = q x) (hid : ∀ x, q x = true → g x = x) (l : List α) :
    (l.map g).filter q = l.filter q := by
  induction l with
  | nil => rfl
  | cons a l ih =>
    cases hqa : q a with
    | true =>
      simp only [List.map_cons, List.filter_cons, hq a, hqa, hid a hqa, ih]
    | false =>
      simp [List.map_cons, List.filter_cons, hq a, hqa, ih]

theorem filter_map_replace {α : Type} (p : α → Bool) (g : α → α) (new : α)
    (hg : ∀ x, p x = true → g x = new) (hnew : p new = true) :
    ∀ l : List α, (l.filter p).length ≤ 1 → l.any p = true →
      ((l.map fun x => if p x then g x else x).filter p) = [new] := by
  intro l
  induction l with
  | nil => intro _ h; simp at h
  | cons a l ih =>
    intro hlen hany
    cases hpa : p a with
    | true =>
      have hrest : l.filter p = [] := by
        rw [List.filter_cons, if_pos hpa] at hlen
        simp only [List.length_cons] at hlen
        exact List.length_eq_zero.mp (by omega)
      have hall : ∀ x ∈ l, p x = false := by
        intro x hx
        by_contra hcontra
        have : p x = true := by revert hcontra; cases p x <;> simp
        exact absurd (List.filter_eq_nil_iff.mp hrest x hx) (by simp [this])
      have hmap : (l.map fun x => if p x then g x else x) = l := by
        rw [List.map_congr_left (fun x hx => by rw [if_neg (by simp [hall x hx])])]
        exact List.map_id' l
      simp only [List.map_cons, if_pos hpa, hg a hpa, List.filter_cons, hnew, if_pos, hmap,
        hrest]
    | false =>
      have hany' : l.any p = true := by
        simpa [List.any_cons, hpa] using hany
      have hlen' : (l.filter p).length ≤ 1 := by
        rwa [List.filter_cons, if_neg (by simp [hpa])] at hlen
      have hhead : (if p a = true then g a else a) = a := if_neg (by simp [hpa])
      rw [List.map_cons, hhead, List.filter_cons, if_neg (by simp [hpa])]
      exact ih hlen' hany'

theorem colon_split_inj : ∀ (l₁ l₂ r₁ r₂ : List Char),
    ':' ∉ l₁ → ':' ∉ l₂ → l₁ ++ ':' :: r₁ = l₂ ++ ':' :: r₂ →
    l₁ = l₂ ∧ r₁ = r₂ := by
  intro l₁
  induction l₁ with
  | nil =>
    intro l₂ r₁ r₂ _ h₂ h
    cases l₂ with
    | nil => simpa using h
    | cons c l₂' =>
      simp only [List.nil_append, List.cons_append, List.cons.injEq] at h
      exact absurd (h.1 ▸ List.mem_cons_self c l₂') h₂
  | cons c l₁' ih =>
    intro l₂ r₁ r₂ h₁ h₂ h
    cases l₂ with
    | nil =>
      simp only [List.nil_append, List.cons_append, List.cons.injEq] at h
      exact absurd (h.1 ▸ List.mem_cons_self c l₁') h₁
    | cons d l₂' =>
      simp only [List.cons_append, List.cons.injEq] at h
      obtain ⟨rfl, h'⟩ := h
      obtain ⟨he, hr⟩ := ih l₂' r₁ r₂ (fun hm => h₁ (List.mem_cons_of_mem _ hm))
        (fun hm => h₂ (List.mem_cons_of_mem _ hm)) h'
      exact ⟨by rw [he], hr⟩

theorem sqMakeKey_data (ns i : String) :
    (sqMakeKey ns i).data = ns.data ++ ':' :: i.data := by
  show ((ns ++ ":") ++ i).data = ns.data ++ ':' :: i.data
  rw [String.data_append, String.data_append]
  have hcolon : (":" : String).data = [':'] := rfl
  rw [hcolon, List.append_assoc]
  rfl

/-! ## Claims -/

/-- C9 counterexample: with identical constructor arguments (both pool
sizes omitted), two different process environments yield different pool
configurations — `_get_param_value` falls back to
`LLM_KIT_PG_POOL_MIN_SIZE` when `pool_min_size` is `None`. -/
theorem pg_pool_depends_on_env :
    pgPoolConfig ⟨some 5, none⟩ none none ≠ pgPoolConfig ⟨none, none⟩ none none := by
  decide

/-- C9 (amended): the pool configuration is independent of the process
environment exactly when both sizes are passed explicitly; an omitted
size falls back to the corresponding `LLM_KIT_PG_POOL_*_SIZE`
environment variable and only then to the built-in defaults 1 / 10. -/
theorem pg_pool_env_independent_iff_explicit (env₁ env₂ : PgEnv) (pmin pmax : Option Int) :
    (pmin.isSome = true → pmax.isSome = true →
      pgPoolConfig env₁ pmin pmax = pgPoolConfig env₂ pmin pmax)
    ∧ pgPoolConfig env₁ none none =
        (env₁.poolMinSizeVar.getD 1, env₁.poolMaxSizeVar.getD 10) := by
  constructor
  · intro hmin hmax
    obtain ⟨a, rfl⟩ := Option.isSome_iff_exists.mp hmin
    obtain ⟨b, rfl⟩ := Option.isSome_iff_exists.mp hmax
    simp [pgPoolConfig, getParamValue]
  · obtain ⟨emin, emax⟩ := env₁
    cases emin <;> cases emax <;> simp [pgPoolConfig, getParamValue]

/-- C9 witness: the amended theorem applied at a concrete environment
and explicit sizes. -/
theorem pg_pool_env_independent_iff_explicit_witness :
    pgPoolConfig ⟨some 5, some 7⟩ (some 2) (some 3) =
      pgPoolConfig ⟨none, none⟩ (some 2) (some 3) :=
  (pg_pool_env_independent_iff_explicit ⟨some 5, some 7⟩ ⟨none, none⟩
    (some 2) (some 3)).1 (by decide) (by decide)

/-- C8 counterexample: the composite-key map of the embedded adapter is
not injective on all string namespaces and ids — a namespace containing
a colon collides with a colon-free one. -/
theorem sqMakeKey_not_injective :
    sqMakeKey "a" "b:c" = sqMakeKey "a:b" "c" ∧
      (("a", "b:c") : String × String) ≠ ("a:b", "c") := by
  constructor
  · rfl
  · decide

/-- C8 (amended): the embedded adapter's map `(namespace, id) ↦
namespace ++ ":" ++ id` is injective on colon-free namespaces, and the
pair `(namespace, composite_id)` — which is what every SQL predicate of
the adapter actually constrains — is injective unconditionally. -/
theorem sqMakeKey_injective_cases :
    (∀ ns₁ i₁ ns₂ i₂ : String, ':' ∉ ns₁.data → ':' ∉ ns₂.data →
      sqMakeKey ns₁ i₁ = sqMakeKey ns₂ i₂ → ns₁ = ns₂ ∧ i₁ = i₂)
    ∧ (∀ ns i₁ i₂ : String, sqMakeKey ns i₁ = sqMakeKey ns i₂ → i₁ = i₂) := by
  constructor
  · intro ns₁ i₁ ns₂ i₂ h₁ h₂ h
    have hdata := congrArg String.data h
    rw [sqMakeKey_data, sqMakeKey_data] at hdata
    obtain ⟨hns, hi⟩ := colon_split_inj _ _ _ _ h₁ h₂ hdata
    exact ⟨String.ext hns, String.ext hi⟩
  · intro ns i₁ i₂ h
    have hdata := congrArg String.data h
    rw [sqMakeKey_data, sqMakeKey_data] at hdata
    exact String.ext (by simpa using List.append_cancel_left hdata)

/-- C8 witness: the amended theorem applied at concrete colon-free
namespaces. -/
theorem sqMakeKey_injective_cases_witness :
    ("a" : String) = "a" ∧ ("b" : String) = "b" :=
  sqMakeKey_injective_cases.1 "a" "b" "a" "b" (by decide) (by decide) rfl

theorem mem_qUpsertPoint (pts : List QPoint) (p : QPoint) : p ∈ qUpsertPoint pts p := by
  unfold qUpsertPoint
  split
  · next h =>
    obtain ⟨q, hq, hqp⟩ := List.any_eq_true.mp h
    refine List.mem_map.mpr ⟨q, hq, ?_⟩
    rw [if_pos hqp]
  · exact List.mem_append_right _ (List.mem_singleton.mpr rfl)

/-- C10: in the remote-service adapter, the stored payload's
`_namespace` field is the namespace argument only when the item's
metadata has no `_namespace` key; a metadata `_namespace` entry
overrides the namespace argument (the dict literal
`{"_namespace": namespace, **dict(item.metadata)}` lets metadata keys
win), the point actually stored by `upsert` carries exactly this
payload, and `query` always strips `_namespace` from the metadata it
returns. -/
theorem qdrant_namespace_payload_override :
    (∀ (ns : String) (meta : Meta), mlookup meta "_namespace" = none →
      mlookup (qPayload ns meta) "_namespace" = some (JVal.str ns))
    ∧ (∀ (ns : String) (meta : Meta) (v : JVal), mlookup meta "_namespace" = some v →
      mlookup (qPayload ns meta) "_namespace" = some v)
    ∧ (∀ (st : QState) (ns : String) (it : VectorItem),
      QPoint.mk it.id it.vector (qPayload ns it.metadata) ∈ (qdrantUpsert st ns [it]).1.points)
    ∧ (∀ (sim : Vec → Vec → ℚ) (st : QState) (ns : String) (vector : Vec) (topK : Int)
        (filters : Option Meta) (res : List QueryResult),
      (qdrantQuery sim st ns vector topK filters).1 = .ok res →
      ∀ r ∈ res, mlookup r.metadata "_namespace" = none) := by
  refine ⟨?_, ?_, ?_, ?_⟩
  · intro ns meta h
    rw [qPayload, mlookup_append_of_none _ h]
    simp [mlookup]
  · intro ns meta v h
    exact mlookup_append_of_some _ h
  · intro st ns it
    show _ ∈ (qdrantUpsert st ns [it]).1.points
    rw [qdrantUpsert]
    simp only [List.map_cons, List.map_nil, List.isEmpty_cons, List.foldl_cons, List.foldl_nil]
    exact mem_qUpsertPoint _ _
  · intro sim st ns vector topK filters res hok r hr
    rw [qdrantQuery] at hok
    by_cases hk : topK < 1
    · simp [hk] at hok
    · simp only [hk, if_false] at hok
      obtain hres := (Except.ok.injEq _ _).mp hok
      subst hres
      obtain ⟨p, _, rfl⟩ := List.mem_map.mp hr
      exact mlookup_filter_ne _ _

/-- C10 witness: the payload-override theorem applied at concrete
metadata with and without a `_namespace` entry. -/
theorem qdrant_namespace_payload_override_witness :
    mlookup (qPayload "A" [("k", JVal.int 1)]) "_namespace" = some (JVal.str "A") ∧
    mlookup (qPayload "A" [("_namespace", JVal.str "B")]) "_namespace" = some (JVal.str "B") :=
  ⟨qdrant_namespace_payload_override.1 "A" [("k", JVal.int 1)] rfl,
   qdrant_namespace_payload_override.2.1 "A" [("_namespace", JVal.str "B")] (JVal.str "B") rfl⟩

/-- C2: at a concrete store holding one point `x` in namespace `ns`
with metadata `type = "y"`, `delete(ids=["x"], filters={"type": "x"})`
returns 1 while removing nothing — `_count_matching` ignores the
metadata filters on the ids path, so the returned count is not the
number of points deleted (contradicting the method's own docstring and
the contract). -/
theorem qdrant_delete_count_mismatch :
    qdrantDelete ⟨true, [⟨"x", [1], qPayload "ns" [("type", JVal.str "y")]⟩]⟩ "ns"
        (some ["x"]) (some [("type", JVal.str "x")])
      = (.ok (1, ⟨true, [⟨"x", [1], qPayload "ns" [("type", JVal.str "y")]⟩]⟩),
         [.collectionExistsCheck, .retrievePoints, .deletePoints]) := by
  rfl

/-- C7 counterexample: calling the remote-service adapter's `upsert`
with an empty item list still performs engine I/O — the
collection-existence check, and collection creation when absent —
before the empty batch is detected. -/
theorem qdrant_empty_upsert_does_io :
    (qdrantUpsert ⟨false, []⟩ "A" []).2 = [.collectionExistsCheck, .createCollection] ∧
    (qdrantUpsert ⟨false, []⟩ "A" []).2 ≠ [] ∧
    (qdrantUpsert ⟨false, []⟩ "A" []).1.collectionExists = true := by
  exact ⟨rfl, by decide, rfl⟩

/-- C7 (amended): upsert with an empty item sequence performs no engine
I/O at all and leaves the state unchanged in the relational and
embedded adapters; the remote-service adapter still performs its
ensure-collection round trips first, but issues no point upsert,
raises no error, and leaves the stored points unchanged. -/
theorem empty_upsert_frame :
    (∀ (st : PgState) (ns : String), pgUpsert st ns [] = (st, []))
    ∧ (∀ (st : SqState) (ns : String), sqUpsert st ns [] = ((st, none), []))
    ∧ (∀ (st : QState) (ns : String),
        (qdrantUpsert st ns []).1.points = st.points ∧
        (qdrantUpsert st ns []).2 = (qEnsureCollection st).2 ∧
        QCall.upsertPoints ∉ (qdrantUpsert st ns []).2) := by
  refine ⟨fun _ _ => rfl, fun _ _ => rfl, fun st ns => ?_⟩
  have h : qdrantUpsert st ns [] = qEnsureCollection st := by
    simp [qdrantUpsert]
  rw [h]
  by_cases hc : st.collectionExists <;> simp [qEnsureCollection, hc]

/-- C3 counterexample: in the remote-service adapter, both validation
errors are raised only after the ensure-collection engine round trips:
a `top_k < 1` query and an argument-less delete each leave a non-empty
engine trace. -/
theorem qdrant_validation_after_io :
    (qdrantQuery (fun _ _ => 0) ⟨false, []⟩ "A" [] 0 none).1
        = .error "top_k must be at least 1" ∧
    (qdrantQuery (fun _ _ => 0) ⟨false, []⟩ "A" [] 0 none).2.2
        = [.collectionExistsCheck, .createCollection] ∧
    (qdrantQuery (fun _ _ => 0) ⟨false, []⟩ "A" [] 0 none).2.2 ≠ [] ∧
    (qdrantDelete ⟨false, []⟩ "A" none none).1
        = .error "delete requires ids or filters" ∧
    (qdrantDelete ⟨false, []⟩ "A" none none).2
        = [.collectionExistsCheck, .createCollection] := by
  exact ⟨rfl, rfl, by decide, rfl, rfl⟩

/-- C3 (amended): the two validation errors — `top_k < 1` and `delete`
with neither ids nor filters — are raised with no engine interaction in
the relational and embedded adapters; the remote-service adapter
performs its ensure-collection round trips (always at least one)
before validating, then raises the same errors. -/
theorem validation_error_traces :
    (∀ (dist : Vec → Vec → ℚ) (st : PgState) (ns : String) (v : Vec) (k : Int)
        (f : Option Meta), k < 1 →
      pgQuery dist st ns v k f = (.error "top_k must be at least 1", []))
    ∧ (∀ (st : PgState) (ns : String) (ids : Option (List String)) (fs : Option Meta),
        truthy ids = false → truthy fs = false →
      pgDelete st ns ids fs = (.error "delete requires ids or filters", []))
    ∧ (∀ (dist : Vec → Vec → ℚ) (st : SqState) (ns : String) (v : Vec) (k : Int)
        (f : Option Meta), k < 1 →
      sqQuery dist st ns v k f = (.error "top_k must be at least 1", []))
    ∧ (∀ (st : SqState) (ns : String) (ids : Option (List String)) (fs : Option Meta),
        truthy ids = false → truthy fs = false →
      sqDelete st ns ids fs = (.error "delete requires ids or filters", []))
    ∧ (∀ (sim : Vec → Vec → ℚ) (st : QState) (ns : String) (v : Vec) (k : Int)
        (f : Option Meta), k < 1 →
      (qdrantQuery sim st ns v k f).1 = .error "top_k must be at least 1" ∧
      (qdrantQuery sim st ns v k f).2.2 = (qEnsureCollection st).2 ∧
      (qEnsureCollection st).2 ≠ [])
    ∧ (∀ (st : QState) (ns : String) (ids : Option (List String)) (fs : Option Meta),
        truthy ids = false → truthy fs = false →
      (qdrantDelete st ns ids fs).1 = .error "delete requires ids or filters" ∧
      (qdrantDelete st ns ids fs).2 = (qEnsureCollection st).2 ∧
      (qEnsureCollection st).2 ≠ []) := by
  refine ⟨?_, ?_, ?_, ?_, ?_, ?_⟩
  · intro dist st ns v k f hk
    simp [pgQuery, hk]
  · intro st ns ids fs hids hfs
    simp [pgDelete, hids, hfs]
  · intro dist st ns v k f hk
    simp [sqQuery, hk]
  · intro st ns ids fs hids hfs
    simp [sqDelete, hids, hfs]
  · intro sim st ns v k f hk
    refine ⟨?_, ?_, ?_⟩
    · simp [qdrantQuery, hk]
    · simp [qdrantQuery, hk]
    · by_cases hc : st.collectionExists <;> simp [qEnsureCollection, hc]
  · intro st ns ids fs hids hfs
    refine ⟨?_, ?_, ?_⟩
    · simp [qdrantDelete, hids, hfs]
    · simp [qdrantDelete, hids, hfs]
    · by_cases hc : st.collectionExists <;> simp [qEnsureCollection, hc]

/-- C3 witness: the amended theorem applied at a concrete invalid
`top_k` against the relational adapter. -/
theorem validation_error_traces_witness :
    pgQuery (fun _ _ => 0) [] "n" [] 0 none = (.error "top_k must be at least 1", []) :=
  validation_error_traces.1 (fun _ _ => 0) [] "n" [] 0 none (by decide)

/-- C1 counterexample: in the remote-service adapter the native point
id is the bare item id, so upserting id `x` under namespace `B`
replaces the point previously stored under `(A, x)`; afterwards a query
against `A` no longer returns the item. -/
theorem qdrant_upsert_cross_namespace_clobbers :
    ((qdrantUpsert (qdrantUpsert ⟨true, []⟩ "A" [⟨"x", [1], []⟩]).1 "B"
        [⟨"x", [2], []⟩]).1).points
      = [⟨"x", [2], [("_namespace", JVal.str "B")]⟩] ∧
    (qdrantQuery (fun _ _ => 1)
        (qdrantUpsert (qdrantUpsert ⟨true, []⟩ "A" [⟨"x", [1], []⟩]).1 "B"
          [⟨"x", [2], []⟩]).1 "A" [1] 1 none).1 = .ok [] := by
  exact ⟨rfl, rfl⟩

theorem qEnsureCollection_points (st : QState) :
    (qEnsureCollection st).1.points = st.points := by
  by_cases hc : st.collectionExists <;> simp [qEnsureCollection, hc]

/-- C6: the embedded adapter's scores are exactly `1 - distance / 2`
for the engine's native cosine distance of a stored row of the
namespace, and the relational adapter's scores are exactly
`1 - distance` for its native `<=>` operator output; no raw distance
value reaches `QueryResult.score`. -/
theorem score_normalization :
    (∀ (dist : Vec → Vec → ℚ) (st : SqState) (ns : String) (v : Vec) (k : Int)
        (f : Option Meta) (res : List QueryResult),
      (sqQuery dist st ns v k f).1 = .ok res →
      ∀ r ∈ res, ∃ row ∈ st, row.ns = ns ∧ r.score = 1 - dist v row.embedding / 2 ∧
        r.id = row.item_id ∧ r.metadata = row.metadata)
    ∧ (∀ (dist : Vec → Vec → ℚ) (st : PgState) (ns : String) (v : Vec) (k : Int)
        (f : Option Meta) (res : List QueryResult),
      (pgQuery dist st ns v k f).1 = .ok res →
      ∀ r ∈ res, ∃ row ∈ st, row.ns = ns ∧ r.score = 1 - dist v row.embedding ∧
        r.id = row.id ∧ r.metadata = row.metadata) := by
  constructor
  · intro dist st ns v k f res hok r hr
    rw [sqQuery] at hok
    by_cases hk : k < 1
    · simp [hk] at hok
    · simp only [hk, if_false] at hok
      have hres := (Except.ok.injEq _ _).mp hok
      subst hres
      obtain ⟨row, hrow, rfl⟩ := List.mem_map.mp hr
      have hrow₁ := List.mem_of_mem_take hrow
      have hrow₂ := List.mem_of_mem_filter hrow₁
      have hrow₃ := List.mem_of_mem_take hrow₂
      have hrow₄ := (mem_sortByKey _ _ _).mp hrow₃
      obtain ⟨hst, hns⟩ := List.mem_filter.mp hrow₄
      exact ⟨row, hst, of_decide_eq_true hns, rfl, rfl, rfl⟩
  · intro dist st ns v k f res hok r hr
    rw [pgQuery] at hok
    by_cases hk : k < 1
    · simp [hk] at hok
    · simp only [hk, if_false] at hok
      have hres := (Except.ok.injEq _ _).mp hok
      subst hres
      obtain ⟨row, hrow, rfl⟩ := List.mem_map.mp hr
      have hrow₁ := List.mem_of_mem_take hrow
      have hrow₂ := (mem_sortByKey _ _ _).mp hrow₁
      obtain ⟨hst, hmatch⟩ := List.mem_filter.mp hrow₂
      have hns : row.ns = ns := by
        have := (Bool.and_eq_true _ _).mp hmatch
        exact of_decide_eq_true this.1
      exact ⟨row, hst, hns, rfl, rfl, rfl⟩

/-- C6 witness: the normalization theorem applied at a concrete store
and query. -/
theorem score_normalization_witness :
    ∃ row ∈ ([⟨"n:x", "n", [(1 : ℚ)], [], "x"⟩] : SqState), row.ns = "n" ∧
      (⟨"x", 1 - (0 : ℚ) / 2, []⟩ : QueryResult).score
        = 1 - (fun (_ _ : Vec) => (0 : ℚ)) [1] row.embedding / 2 ∧
      (⟨"x", 1 - (0 : ℚ) / 2, []⟩ : QueryResult).id = row.item_id ∧
      (⟨"x", 1 - (0 : ℚ) / 2, []⟩ : QueryResult).metadata = row.metadata :=
  score_normalization.1 (fun _ _ => 0) [⟨"n:x", "n", [1], [], "x"⟩] "n" [1] 1 none
    [⟨"x", 1 - (0 : ℚ) / 2, []⟩] rfl ⟨"x", 1 - (0 : ℚ) / 2, []⟩ (List.mem_singleton.mpr rfl)

theorem pgQuery_ok_elim (dist : Vec → Vec → ℚ) (st : PgState) (ns : String) (v : Vec)
    (k : Int) (f : Option Meta) (res : List QueryResult)
    (hok : (pgQuery dist st ns v k f).1 = .ok res) :
    ∀ r ∈ res, ∃ row ∈ st, pgQueryMatch ns f row = true ∧
      r = ⟨row.id, 1 - dist v row.embedding, row.metadata⟩ := by
  intro r hr
  rw [pgQuery] at hok
  by_cases hk : k < 1
  · simp [hk] at hok
  · simp only [hk, if_false] at hok
    have hres := (Except.ok.injEq _ _).mp hok
    subst hres
    obtain ⟨row, hrow, rfl⟩ := List.mem_map.mp hr
    obtain ⟨hst, hmatch⟩ :=
      List.mem_filter.mp ((mem_sortByKey _ _ _).mp (List.mem_of_mem_take hrow))
    exact ⟨row, hst, hmatch, rfl⟩

theorem sqQuery_ok_elim (dist : Vec → Vec → ℚ) (st : SqState) (ns : String) (v : Vec)
    (k : Int) (f : Option Meta) (res : List QueryResult)
    (hok : (sqQuery dist st ns v k f).1 = .ok res) :
    ∀ r ∈ res, ∃ row ∈ st, row.ns = ns ∧
      (if truthy f then sqFilterMatch row.metadata (optList f) else true) = true ∧
      r = ⟨row.item_id, 1 - dist v row.embedding / 2, row.metadata⟩ := by
  intro r hr
  rw [sqQuery] at hok
  by_cases hk : k < 1
  · simp [hk] at hok
  · simp only [hk, if_false] at hok
    have hres := (Except.ok.injEq _ _).mp hok
    subst hres
    obtain ⟨row, hrow, rfl⟩ := List.mem_map.mp hr
    obtain ⟨hfetched, hq⟩ := List.mem_filter.mp (List.mem_of_mem_take hrow)
    obtain ⟨hst, hns⟩ :=
      List.mem_filter.mp ((mem_sortByKey _ _ _).mp (List.mem_of_mem_take hfetched))
    exact ⟨row, hst, of_decide_eq_true hns, hq, rfl⟩

theorem qdrantQuery_ok_elim (sim : Vec → Vec → ℚ) (st : QState) (ns : String) (v : Vec)
    (k : Int) (f : Option Meta) (res : List QueryResult)
    (hok : (qdrantQuery sim st ns v k f).1 = .ok res) :
    ∀ r ∈ res, ∃ p ∈ st.points, qFilterMatch ns f p = true ∧
      r = ⟨p.id, sim v p.vector, p.payload.filter fun kv => decide (kv.1 ≠ "_namespace")⟩ := by
  intro r hr
  rw [qdrantQuery] at hok
  by_cases hk : k < 1
  · simp [hk] at hok
  · simp only [hk, if_false] at hok
    have hres := (Except.ok.injEq _ _).mp hok
    subst hres
    obtain ⟨p, hp, rfl⟩ := List.mem_map.mp hr
    obtain ⟨hpts, hmatch⟩ :=
      List.mem_filter.mp ((mem_sortByKey _ _ _).mp (List.mem_of_mem_take hp))
    rw [qEnsureCollection_points] at hpts
    exact ⟨p, hpts, hmatch, rfl⟩

/-- C4: every adapter's `query` returns at most `top_k` results in
non-increasing score order, and a query whose namespace holds no
matching item returns the empty sequence rather than an error. -/
theorem query_topk_contract :
    (∀ (dist : Vec → Vec → ℚ) (st : PgState) (ns : String) (v : Vec) (k : Int)
        (f : Option Meta) (res : List QueryResult),
      (pgQuery dist st ns v k f).1 = .ok res →
      (res.length : Int) ≤ k ∧ res.Pairwise (fun a b => b.score ≤ a.score))
    ∧ (∀ (dist : Vec → Vec → ℚ) (st : SqState) (ns : String) (v : Vec) (k : Int)
        (f : Option Meta) (res : List QueryResult),
      (sqQuery dist st ns v k f).1 = .ok res →
      (res.length : Int) ≤ k ∧ res.Pairwise (fun a b => b.score ≤ a.score))
    ∧ (∀ (sim : Vec → Vec → ℚ) (st : QState) (ns : String) (v : Vec) (k : Int)
        (f : Option Meta) (res : List QueryResult),
      (qdrantQuery sim st ns v k f).1 = .ok res →
      (res.length : Int) ≤ k ∧ res.Pairwise (fun a b => b.score ≤ a.score))
    ∧ (∀ (dist : Vec → Vec → ℚ) (st : PgState) (ns : String) (v : Vec) (k : Int)
        (f : Option Meta), 1 ≤ k → (∀ row ∈ st, pgQueryMatch ns f row = false) →
      (pgQuery dist st ns v k f).1 = .ok [])
    ∧ (∀ (dist : Vec → Vec → ℚ) (st : SqState) (ns : String) (v : Vec) (k : Int)
        (f : Option Meta), 1 ≤ k →
      (∀ row ∈ st, row.ns = ns →
        (if truthy f then sqFilterMatch row.metadata (optList f) else true) = false) →
      (sqQuery dist st ns v k f).1 = .ok [])
    ∧ (∀ (sim : Vec → Vec → ℚ) (st : QState) (ns : String) (v : Vec) (k : Int)
        (f : Option Meta), 1 ≤ k → (∀ p ∈ st.points, qFilterMatch ns f p = false) →
      (qdrantQuery sim st ns v k f).1 = .ok []) := by
  refine ⟨?_, ?_, ?_, ?_, ?_, ?_⟩
  · intro dist st ns v k f res hok
    rw [pgQuery] at hok
    by_cases hk : k < 1
    · simp [hk] at hok
    · simp only [hk, if_false] at hok
      have hres := (Except.ok.injEq _ _).mp hok
      constructor
      · have h1 : res.length ≤ k.toNat := by
          rw [← hres, List.length_map]; exact List.length_take_le _ _
        omega
      · rw [← hres]
        exact ((sortByKey_pairwise _ _).sublist (List.take_sublist _ _)).map _
          (fun a b hab => by dsimp only; linarith)
  · intro dist st ns v k f res hok
    rw [sqQuery] at hok
    by_cases hk : k < 1
    · simp [hk] at hok
    · simp only [hk, if_false] at hok
      have hres := (Except.ok.injEq _ _).mp hok
      constructor
      · have h1 : res.length ≤ k.toNat := by
          rw [← hres, List.length_map]; exact List.length_take_le _ _
        omega
      · rw [← hres]
        exact (((((sortByKey_pairwise _ _).sublist (List.take_sublist _ _)).sublist
          (List.filter_sublist _)).sublist (List.take_sublist _ _)).map _
          (fun a b hab => by dsimp only; linarith))
  · intro sim st ns v k f res hok
    rw [qdrantQuery] at hok
    by_cases hk : k < 1
    · simp [hk] at hok
    · simp only [hk, if_false] at hok
      have hres := (Except.ok.injEq _ _).mp hok
      constructor
      · have h1 : res.length ≤ k.toNat := by
          rw [← hres, List.length_map]; exact List.length_take_le _ _
        omega
      · rw [← hres]
        exact ((sortByKey_pairwise _ _).sublist (List.take_sublist _ _)).map _
          (fun a b hab => by dsimp only at hab ⊢; linarith)
  · intro dist st ns v k f hk hempty
    have hk' : ¬ k < 1 := by omega
    rw [pgQuery]
    simp only [hk', if_false]
    refine congrArg Except.ok (List.eq_nil_iff_forall_not_mem.mpr fun r hr => ?_)
    obtain ⟨row, hrow, -⟩ := List.mem_map.mp hr
    obtain ⟨hst, hmatch⟩ :=
      List.mem_filter.mp ((mem_sortByKey _ _ _).mp (List.mem_of_mem_take hrow))
    rw [hempty row hst] at hmatch
    exact Bool.false_ne_true hmatch
  · intro dist st ns v k f hk hempty
    have hk' : ¬ k < 1 := by omega
    rw [sqQuery]
    simp only [hk', if_false]
    refine congrArg Except.ok (List.eq_nil_iff_forall_not_mem.mpr fun r hr => ?_)
    obtain ⟨row, hrow, -⟩ := List.mem_map.mp hr
    obtain ⟨hfetched, hq⟩ := List.mem_filter.mp (List.mem_of_mem_take hrow)
    obtain ⟨hst, hns⟩ :=
      List.mem_filter.mp ((mem_sortByKey _ _ _).mp (List.mem_of_mem_take hfetched))
    rw [hempty row hst (of_decide_eq_true hns)] at hq
    exact Bool.false_ne_true hq
  · intro sim st ns v k f hk hempty
    have hk' : ¬ k < 1 := by omega
    rw [qdrantQuery]
    simp only [hk', if_false]
    refine congrArg Except.ok (List.eq_nil_iff_forall_not_mem.mpr fun r hr => ?_)
    obtain ⟨p, hp, -⟩ := List.mem_map.mp hr
    obtain ⟨hpts, hmatch⟩ :=
      List.mem_filter.mp ((mem_sortByKey _ _ _).mp (List.mem_of_mem_take hp))
    rw [qEnsureCollection_points] at hpts
    rw [hempty p hpts] at hmatch
    exact Bool.false_ne_true hmatch

/-- C4 witness: the contract applied at a concrete one-row store and at
an empty namespace. -/
theorem query_topk_contract_witness :
    (pgQuery (fun _ _ => 0) [⟨"other", "x", [1], []⟩] "B" [] 1 none).1 = .ok [] :=
  query_topk_contract.2.2.2.1 (fun _ _ => 0) [⟨"other", "x", [1], []⟩] "B" [] 1 none
    (by decide)
    (fun row hrow => by
      rw [List.mem_singleton.mp hrow]
      decide)

theorem filter_pgUpsertRow (st : PgState) (ns : String) (it : VectorItem)
    (h : (st.filter (pgKeyHit ns it.id)).length ≤ 1) :
    (pgUpsertRow st ns it).filter (pgKeyHit ns it.id)
      = [⟨ns, it.id, it.vector, it.metadata⟩] := by
  rw [pgUpsertRow]
  by_cases hany : st.any (pgKeyHit ns it.id) = true
  · rw [if_pos hany]
    refine filter_map_replace (pgKeyHit ns it.id)
      (fun r => { r with embedding := it.vector, metadata := it.metadata })
      ⟨ns, it.id, it.vector, it.metadata⟩ ?_ ?_ st h hany
    · intro x hx
      simp only [pgKeyHit, Bool.and_eq_true, decide_eq_true_eq] at hx
      obtain ⟨h1, h2⟩ := hx
      cases x with
      | mk a b c d => simp_all
    · simp [pgKeyHit]
  · rw [if_neg hany]
    rw [List.filter_append]
    have h1 : st.filter (pgKeyHit ns it.id) = [] :=
      List.filter_eq_nil_iff.mpr fun r hr hc =>
        hany (List.any_eq_true.mpr ⟨r, hr, hc⟩)
    rw [h1]
    simp [pgKeyHit]

theorem filter_qUpsertPoint (pts : List QPoint) (p : QPoint)
    (h : (pts.filter (qIdHit p.id)).length ≤ 1) :
    (qUpsertPoint pts p).filter (qIdHit p.id) = [p] := by
  rw [qUpsertPoint]
  by_cases hany : pts.any (qIdHit p.id) = true
  · rw [if_pos hany]
    exact filter_map_replace (qIdHit p.id) (fun _ => p) p (fun x _ => rfl)
      (by simp [qIdHit]) pts h hany
  · rw [if_neg hany]
    rw [List.filter_append]
    have h1 : pts.filter (qIdHit p.id) = [] :=
      List.filter_eq_nil_iff.mpr fun q hq hc =>
        hany (List.any_eq_true.mpr ⟨q, hq, hc⟩)
    rw [h1]
    simp [qIdHit]

theorem sqUpsert_single (st : SqState) (ns : String) (it : VectorItem)
    (hcomp : ∀ r ∈ st, r.composite_id = sqMakeKey ns it.id → r.ns = ns) :
    sqUpsert st ns [it]
      = (((st.filter fun r => !sqKeyHit ns [sqMakeKey ns it.id] r)
          ++ [⟨sqMakeKey ns it.id, ns, it.vector, it.metadata, it.id⟩], none),
         [.deleteWhere, .insertRow]) := by
  rw [sqUpsert]
  rw [if_neg (by simp)]
  have hnoany : ((st.filter fun r => !sqKeyHit ns [sqMakeKey ns it.id] r).any
      fun r => decide (r.composite_id = sqMakeKey ns it.id)) = false := by
    rw [List.any_eq_false]
    intro r hr hc
    obtain ⟨hst, hkeep⟩ := List.mem_filter.mp hr
    have hcompr : r.composite_id = sqMakeKey ns it.id := of_decide_eq_true hc
    have hns : r.ns = ns := hcomp r hst hcompr
    have : sqKeyHit ns [sqMakeKey ns it.id] r = true := by
      simp [sqKeyHit, hns, hcompr]
    simp [this] at hkeep
  simp only [List.map_cons, List.map_nil, sqInsertAll, hnoany, Bool.false_eq_true, if_false]

/-- C5 counterexample: in the embedded adapter the insert-or-replace
claim fails on a reachable composite-key collision.  After
`upsert(namespace="a:b", items=[{id:"c"}])`, upserting
`(namespace="a", id="b:c")` twice errors both times: the
namespace-scoped delete step removes nothing, and the insert hits the
vec0 PRIMARY KEY on the colliding composite `"a:b:c"`.  The store ends
with zero items under namespace `"a"` — not exactly one item holding
the latest write. -/
theorem sq_upsert_composite_collision :
    ((sqUpsert (sqUpsert (sqUpsert [] "a:b" [⟨"c", [1], []⟩]).1.1 "a"
        [⟨"b:c", [2], []⟩]).1.1 "a" [⟨"b:c", [3], []⟩]).1).2
      = some "UNIQUE constraint failed: vec_items.composite_id" ∧
    ((sqUpsert (sqUpsert (sqUpsert [] "a:b" [⟨"c", [1], []⟩]).1.1 "a"
        [⟨"b:c", [2], []⟩]).1.1 "a" [⟨"b:c", [3], []⟩]).1).1.filter
        (fun r => decide (r.ns = "a"))
      = [] := by
  exact ⟨rfl, rfl⟩

/-- C5 (amended): upsert is insert-or-replace keyed by `(namespace,
id)`: upserting the same key twice leaves exactly one stored item for
the key, holding precisely the vector and metadata of the latest
write — in the relational and remote-service adapters from any state
respecting the engine's at-most-one-row-per-key constraint, and in the
embedded adapter provided no row of another namespace already occupies
the composite key `namespace ++ ":" ++ id` (guaranteed when namespaces
are colon-free); at such a collision the delete-then-insert upsert
fails instead (see the counterexample). -/
theorem upsert_insert_or_replace :
    (∀ (st : PgState) (ns i : String) (v₁ v₂ : Vec) (m₁ m₂ : Meta),
      (st.filter (pgKeyHit ns i)).length ≤ 1 →
      ((pgUpsert (pgUpsert st ns [⟨i, v₁, m₁⟩]).1 ns [⟨i, v₂, m₂⟩]).1).filter (pgKeyHit ns i)
        = [⟨ns, i, v₂, m₂⟩])
    ∧ (∀ (st : SqState) (ns i : String) (v₁ v₂ : Vec) (m₁ m₂ : Meta),
      (∀ r ∈ st, r.composite_id = sqMakeKey ns i → r.ns = ns) →
      (sqUpsert st ns [⟨i, v₁, m₁⟩]).1.2 = none ∧
      (sqUpsert (sqUpsert st ns [⟨i, v₁, m₁⟩]).1.1 ns [⟨i, v₂, m₂⟩]).1.2 = none ∧
      ((sqUpsert (sqUpsert st ns [⟨i, v₁, m₁⟩]).1.1 ns [⟨i, v₂, m₂⟩]).1.1).filter
          (fun r => decide (r.composite_id = sqMakeKey ns i))
        = [⟨sqMakeKey ns i, ns, v₂, m₂, i⟩])
    ∧ (∀ (st : QState) (ns i : String) (v₁ v₂ : Vec) (m₁ m₂ : Meta),
      (st.points.filter (qIdHit i)).length ≤ 1 →
      ((qdrantUpsert (qdrantUpsert st ns [⟨i, v₁, m₁⟩]).1 ns [⟨i, v₂, m₂⟩]).1).points.filter
          (qIdHit i)
        = [⟨i, v₂, qPayload ns m₂⟩]) := by
  refine ⟨?_, ?_, ?_⟩
  · intro st ns i v₁ v₂ m₁ m₂ h
    have e : ∀ (X : PgState) (it : VectorItem),
        (pgUpsert X ns [it]).1 = pgUpsertRow X ns it := fun _ _ => rfl
    rw [e, e]
    have h1 := filter_pgUpsertRow st ns ⟨i, v₁, m₁⟩ h
    exact filter_pgUpsertRow _ ns ⟨i, v₂, m₂⟩ (by rw [h1]; simp)
  · intro st ns i v₁ v₂ m₁ m₂ hcomp
    have e1 := sqUpsert_single st ns ⟨i, v₁, m₁⟩ hcomp
    have hcomp₁ : ∀ r ∈ (sqUpsert st ns [⟨i, v₁, m₁⟩]).1.1,
        r.composite_id = sqMakeKey ns i → r.ns = ns := by
      rw [e1]
      intro r hr hc
      rcases List.mem_append.mp hr with hmem | hmem
      · exact hcomp r (List.mem_of_mem_filter hmem) hc
      · rw [List.mem_singleton.mp hmem]
    have e2 := sqUpsert_single (sqUpsert st ns [⟨i, v₁, m₁⟩]).1.1 ns ⟨i, v₂, m₂⟩ hcomp₁
    refine ⟨by rw [e1], by rw [e2], ?_⟩
    rw [e2, List.filter_append]
    have hleft : ((sqUpsert st ns [⟨i, v₁, m₁⟩]).1.1.filter
        fun r => !sqKeyHit ns [sqMakeKey ns i] r).filter
          (fun r => decide (r.composite_id = sqMakeKey ns i)) = [] := by
      refine List.filter_eq_nil_iff.mpr fun r hr hc => ?_
      obtain ⟨hmem, hkeep⟩ := List.mem_filter.mp hr
      have hcompr : r.composite_id = sqMakeKey ns i := of_decide_eq_true hc
      have hns : r.ns = ns := hcomp₁ r hmem hcompr
      have : sqKeyHit ns [sqMakeKey ns i] r = true := by
        simp [sqKeyHit, hns, hcompr]
      simp [this] at hkeep
    rw [hleft]
    simp
  · intro st ns i v₁ v₂ m₁ m₂ h
    have e : ∀ (X : QState) (it : VectorItem),
        (qdrantUpsert X ns [it]).1.points
          = qUpsertPoint X.points ⟨it.id, it.vector, qPayload ns it.metadata⟩ := by
      intro X it
      rw [qdrantUpsert]
      simp only [List.map_cons, List.map_nil, List.isEmpty_cons, Bool.false_eq_true, if_false,
        List.foldl_cons, List.foldl_nil]
      rw [qEnsureCollection_points]
    rw [e, e]
    have h1 := filter_qUpsertPoint st.points ⟨i, v₁, qPayload ns m₁⟩ h
    exact filter_qUpsertPoint _ ⟨i, v₂, qPayload ns m₂⟩ (by rw [h1]; simp)

/-- C5 witness: the idempotent-upsert theorem applied starting from the
empty state of each of the three adapters. -/
theorem upsert_insert_or_replace_witness :
    (((pgUpsert (pgUpsert [] "n" [⟨"x", [1], []⟩]).1 "n" [⟨"x", [2], []⟩]).1).filter
        (pgKeyHit "n" "x") = [⟨"n", "x", [2], []⟩]) ∧
    ((sqUpsert ([] : SqState) "n" [⟨"x", [1], []⟩]).1.2 = none ∧
     (sqUpsert (sqUpsert ([] : SqState) "n" [⟨"x", [1], []⟩]).1.1 "n"
        [⟨"x", [2], []⟩]).1.2 = none ∧
     ((sqUpsert (sqUpsert ([] : SqState) "n" [⟨"x", [1], []⟩]).1.1 "n"
        [⟨"x", [2], []⟩]).1.1).filter
          (fun r => decide (r.composite_id = sqMakeKey "n" "x"))
        = [⟨sqMakeKey "n" "x", "n", [2], [], "x"⟩]) ∧
    (((qdrantUpsert (qdrantUpsert ⟨false, []⟩ "n" [⟨"x", [1], []⟩]).1 "n"
        [⟨"x", [2], []⟩]).1).points.filter (qIdHit "x") = [⟨"x", [2], qPayload "n" []⟩]) :=
  ⟨upsert_insert_or_replace.1 [] "n" "x" [1] [2] [] [] (by decide),
   upsert_insert_or_replace.2.1 [] "n" "x" [1] [2] [] []
     (fun r hr => absurd hr (List.not_mem_nil r)),
   upsert_insert_or_replace.2.2 ⟨false, []⟩ "n" "x" [1] [2] [] [] (by decide)⟩

theorem filter_filter_of_imp {α : Type} (p q : α → Bool) (l : List α)
    (h : ∀ a, q a = true → p a = true) : (l.filter p).filter q = l.filter q := by
  induction l with
  | nil => rfl
  | cons a l ih =>
    by_cases hq : q a = true
    · have hp := h a hq
      simp [List.filter_cons, hp, hq, ih]
    · by_cases hp : p a = true <;> simp [List.filter_cons, hp, hq, ih]

theorem pgUpsertRow_other_ns (st : PgState) (ns : String) (it : VectorItem) :
    (pgUpsertRow st ns it).filter (pgOtherNs ns) = st.filter (pgOtherNs ns) := by
  rw [pgUpsertRow]
  by_cases hany : st.any (pgKeyHit ns it.id) = true
  · rw [if_pos hany]
    refine filter_map_stable (pgOtherNs ns) _ ?_ ?_ st
    · intro x
      by_cases hx : pgKeyHit ns it.id x = true
      · rw [if_pos hx]
        cases x with
        | mk a b c d => rfl
      · rw [if_neg hx]
    · intro x hqx
      have hns : ¬ x.ns = ns := by
        simpa [pgOtherNs] using hqx
      rw [if_neg (by simp [pgKeyHit, hns])]
  · rw [if_neg hany, List.filter_append]
    simp [pgOtherNs]

theorem pgUpsert_other_ns (st : PgState) (ns : String) (items : List VectorItem) :
    ((pgUpsert st ns items).1).filter (pgOtherNs ns) = st.filter (pgOtherNs ns) := by
  have hfold : ∀ (l : List VectorItem) (s : PgState),
      (l.foldl (fun s it => pgUpsertRow s ns it) s).filter (pgOtherNs ns)
        = s.filter (pgOtherNs ns) := by
    intro l
    induction l with
    | nil => intro s; rfl
    | cons it rest ih =>
      intro s
      rw [List.foldl_cons, ih, pgUpsertRow_other_ns]
  rw [pgUpsert]
  by_cases hi : items.isEmpty = true
  · rw [if_pos hi]
  · rw [if_neg hi]
    exact hfold items st

theorem sqInsertAll_other_ns (ns : String) :
    ∀ (items : List VectorItem) (s : SqState),
      ((sqInsertAll ns s items).1.1).filter (sqOtherNs ns) = s.filter (sqOtherNs ns) := by
  intro items
  induction items with
  | nil => intro s; rfl
  | cons it rest ih =>
    intro s
    rw [sqInsertAll]
    by_cases hdup : (s.any fun r => decide (r.composite_id = sqMakeKey ns it.id)) = true
    · rw [if_pos hdup]
    · rw [if_neg hdup]
      show ((sqInsertAll ns (s ++ [_]) rest).1.1).filter _ = _
      rw [ih, List.filter_append]
      simp [sqOtherNs]

theorem sqUpsert_other_ns (st : SqState) (ns : String) (items : List VectorItem) :
    ((sqUpsert st ns items).1.1).filter (sqOtherNs ns) = st.filter (sqOtherNs ns) := by
  rw [sqUpsert]
  by_cases hi : items.isEmpty = true
  · rw [if_pos hi]
  · rw [if_neg hi]
    show ((sqInsertAll ns (st.filter _) items).1.1).filter _ = _
    rw [sqInsertAll_other_ns]
    refine filter_filter_of_imp _ _ st fun r hr => ?_
    have hns : ¬ r.ns = ns := by simpa [sqOtherNs] using hr
    simp [sqKeyHit, hns]

/-- C1 (amended): namespace isolation holds for `query` and `delete` in
all three adapters — results of a query against `ns` come only from
rows/points stored under `ns`, and a delete against `ns` leaves every
row/point outside `ns` exactly as it was — and for `upsert` in the
relational and embedded adapters, whose writes never touch rows of
other namespaces.  In the remote-service adapter the native point id is
the bare item id, so an upsert against namespace `B` carrying an id
that exists under namespace `A` replaces the item stored under
`(A, x)` (see the counterexample). -/
theorem namespace_isolation :
    (∀ (st : PgState) (ns : String) (items : List VectorItem),
      ((pgUpsert st ns items).1).filter (pgOtherNs ns) = st.filter (pgOtherNs ns))
    ∧ (∀ (st : SqState) (ns : String) (items : List VectorItem),
      ((sqUpsert st ns items).1.1).filter (sqOtherNs ns) = st.filter (sqOtherNs ns))
    ∧ (∀ (dist : Vec → Vec → ℚ) (st : PgState) (ns : String) (v : Vec) (k : Int)
        (f : Option Meta) (res : List QueryResult),
      (pgQuery dist st ns v k f).1 = .ok res →
      ∀ r ∈ res, ∃ row ∈ st, row.ns = ns ∧ r.id = row.id)
    ∧ (∀ (dist : Vec → Vec → ℚ) (st : SqState) (ns : String) (v : Vec) (k : Int)
        (f : Option Meta) (res : List QueryResult),
      (sqQuery dist st ns v k f).1 = .ok res →
      ∀ r ∈ res, ∃ row ∈ st, row.ns = ns ∧ r.id = row.item_id)
    ∧ (∀ (sim : Vec → Vec → ℚ) (st : QState) (ns : String) (v : Vec) (k : Int)
        (f : Option Meta) (res : List QueryResult),
      (qdrantQuery sim st ns v k f).1 = .ok res →
      ∀ r ∈ res, ∃ p ∈ st.points,
        mlookup p.payload "_namespace" = some (JVal.str ns) ∧ r.id = p.id)
    ∧ (∀ (st : PgState) (ns : String) (ids : Option (List String)) (fs : Option Meta)
        (k : Int) (st' : PgState), (pgDelete st ns ids fs).1 = .ok (k, st') →
      st'.filter (pgOtherNs ns) = st.filter (pgOtherNs ns))
    ∧ (∀ (st : SqState) (ns : String) (ids : Option (List String)) (fs : Option Meta)
        (k : Int) (st' : SqState), (sqDelete st ns ids fs).1 = .ok (k, st') →
      st'.filter (sqOtherNs ns) = st.filter (sqOtherNs ns))
    ∧ (∀ (st : QState) (ns : String) (ids : Option (List String)) (fs : Option Meta)
        (k : Int) (st' : QState), (qdrantDelete st ns ids fs).1 = .ok (k, st') →
      st'.points.filter (qOtherNs ns) = st.points.filter (qOtherNs ns)) := by
  refine ⟨pgUpsert_other_ns, sqUpsert_other_ns, ?_, ?_, ?_, ?_, ?_, ?_⟩
  · intro dist st ns v k f res hok r hr
    obtain ⟨row, hrow, hmatch, hr_eq⟩ := pgQuery_ok_elim dist st ns v k f res hok r hr
    have hns : row.ns = ns := by
      simp only [pgQueryMatch, Bool.and_eq_true, decide_eq_true_eq] at hmatch
      exact hmatch.1
    exact ⟨row, hrow, hns, by rw [hr_eq]⟩
  · intro dist st ns v k f res hok r hr
    obtain ⟨row, hrow, hns, -, hr_eq⟩ := sqQuery_ok_elim dist st ns v k f res hok r hr
    exact ⟨row, hrow, hns, by rw [hr_eq]⟩
  · intro sim st ns v k f res hok r hr
    obtain ⟨p, hp, hmatch, hr_eq⟩ := qdrantQuery_ok_elim sim st ns v k f res hok r hr
    have hns : mlookup p.payload "_namespace" = some (JVal.str ns) := by
      simp only [qFilterMatch, Bool.and_eq_true, decide_eq_true_eq] at hmatch
      exact hmatch.1
    exact ⟨p, hp, hns, by rw [hr_eq]⟩
  · intro st ns ids fs k st' hok
    rw [pgDelete] at hok
    by_cases hval : (!truthy ids && !truthy fs) = true
    · simp [hval] at hok
    · simp only [hval, Bool.false_eq_true, if_false] at hok
      obtain ⟨-, hst⟩ := Prod.mk.injEq .. |>.mp ((Except.ok.injEq _ _).mp hok)
      rw [← hst]
      refine filter_filter_of_imp _ _ st fun a ha => ?_
      have hns : ¬ a.ns = ns := by simpa [pgOtherNs] using ha
      simp [pgDeleteMatch, hns]
  · intro st ns ids fs k st' hok
    rw [sqDelete] at hok
    by_cases hval : (!truthy ids && !truthy fs) = true
    · simp [hval] at hok
    · simp only [hval, Bool.false_eq_true, if_false] at hok
      by_cases hbranch : (truthy ids && !truthy fs) = true
      · simp only [hbranch, if_true] at hok
        obtain ⟨-, hst⟩ := Prod.mk.injEq .. |>.mp ((Except.ok.injEq _ _).mp hok)
        rw [← hst]
        refine filter_filter_of_imp _ _ st fun a ha => ?_
        have hns : ¬ a.ns = ns := by simpa [sqOtherNs] using ha
        simp [sqKeyHit, hns]
      · simp only [hbranch, Bool.false_eq_true, if_false] at hok
        by_cases hempty :
            (((st.filter fun r => decide (r.ns = ns)).filter fun r =>
                (if truthy ids then decide (r.item_id ∈ optList ids) else true)
                  && (if truthy fs then sqFilterMatch r.metadata (optList fs) else true)).map
              fun r => r.item_id).isEmpty = true
        · simp only [hempty, if_true] at hok
          obtain ⟨-, hst⟩ := Prod.mk.injEq .. |>.mp ((Except.ok.injEq _ _).mp hok)
          rw [← hst]
        · simp only [hempty, Bool.false_eq_true, if_false] at hok
          obtain ⟨-, hst⟩ := Prod.mk.injEq .. |>.mp ((Except.ok.injEq _ _).mp hok)
          rw [← hst]
          refine filter_filter_of_imp _ _ st fun a ha => ?_
          have hns : ¬ a.ns = ns := by simpa [sqOtherNs] using ha
          simp [sqKeyHit, hns]
  · intro st ns ids fs k st' hok
    rw [qdrantDelete] at hok
    by_cases hval : (!truthy ids && !truthy fs) = true
    · simp [hval] at hok
    · simp only [hval, Bool.false_eq_true, if_false] at hok
      obtain ⟨-, hst⟩ := Prod.mk.injEq .. |>.mp ((Except.ok.injEq _ _).mp hok)
      rw [← hst]
      show ((qEnsureCollection st).1.points.filter _).filter _ = _
      rw [qEnsureCollection_points]
      refine filter_filter_of_imp _ _ st.points fun p hp => ?_
      have hns : ¬ mlookup p.payload "_namespace" = some (JVal.str ns) := by
        simpa [qOtherNs] using hp
      simp [qDeleteMatch, hns]

/-- C1 witness: isolation applied at a concrete two-namespace store of
the relational adapter. -/
theorem namespace_isolation_witness :
    ∃ row ∈ ([⟨"B", "x", [(1 : ℚ)], []⟩] : PgState), row.ns = "B" ∧
      (⟨"x", 1 - (0 : ℚ), []⟩ : QueryResult).id = row.id :=
  namespace_isolation.2.2.1 (fun _ _ => 0) [⟨"B", "x", [1], []⟩] "B" [] 1 none
    [⟨"x", 1 - (0 : ℚ), []⟩] rfl ⟨"x", 1 - (0 : ℚ), []⟩ (List.mem_singleton.mpr rfl)
